import Mathlib

/-!
Shallow embedding of the `mygem` Gemini-protocol library (`src/lib.rs`).

Rust strings (`&str`) are embedded as `List Char`; raw byte sequences
(`&[u8]`, readers) as `List Nat` with every byte below 256.  Machine
integers that matter (`u8` status codes, byte lengths) are `Nat` with
explicit range checks, mirroring the source's own checks.  Fallible Rust
functions returning `Result`/`Option` become `Except`/`Option`; the one
place where the source can panic (a byte-range slice of a `str`) is
modelled with an explicit `panicked` constructor.
-/

set_option maxRecDepth 10000

/-- Error payload of `status::InvalidStatusError(u8)`: the offending code. -/
abbrev InvalidStatusError := Nat

/-- Embeds `status::Input`. -/
inductive Input where
  | input
  | sensitive
deriving DecidableEq, Repr

/-- Embeds `status::Redirect`. -/
inductive Redirect where
  | temporary
  | permanent
deriving DecidableEq, Repr

/-- Embeds `status::TemporaryFailure`. -/
inductive TemporaryFailure where
  | temporaryFailure
  | serverUnavailable
  | cgiError
  | proxyError
  | slowDown
deriving DecidableEq, Repr

/-- Embeds `status::PermanentFailure`. -/
inductive PermanentFailure where
  | permanentFailure
  | notFound
  | gone
  | proxyRequestRefused
  | badRequest
deriving DecidableEq, Repr

/-- Embeds `status::ClientCertificateRequired`. -/
inductive ClientCertificateRequired where
  | clientCertificateRequired
  | certificateNotAuthorized
  | certificateNotValid
deriving DecidableEq, Repr

/-- Embeds `status::Status`. -/
inductive Status where
  | input : Input → Status
  | success
  | redirect : Redirect → Status
  | temporaryFailure : TemporaryFailure → Status
  | permanentFailure : PermanentFailure → Status
  | clientCertificateRequired : ClientCertificateRequired → Status
deriving DecidableEq, Repr

/-- Embeds `impl TryFrom<u8> for Status` (`fn try_from(code: u8)`).
The `#[default]` variants of the sub-enums are their first constructors. -/
def Status.tryFrom (code : Nat) : Except InvalidStatusError Status :=
  match code with
  | 10 => .ok (.input .input)
  | 11 => .ok (.input .sensitive)
  | 20 => .ok .success
  | 30 => .ok (.redirect .temporary)
  | 31 => .ok (.redirect .permanent)
  | 40 => .ok (.temporaryFailure .temporaryFailure)
  | 41 => .ok (.temporaryFailure .serverUnavailable)
  | 42 => .ok (.temporaryFailure .cgiError)
  | 43 => .ok (.temporaryFailure .proxyError)
  | 44 => .ok (.temporaryFailure .slowDown)
  | 50 => .ok (.permanentFailure .permanentFailure)
  | 51 => .ok (.permanentFailure .notFound)
  | 52 => .ok (.permanentFailure .gone)
  | 53 => .ok (.permanentFailure .proxyRequestRefused)
  | 59 => .ok (.permanentFailure .badRequest)
  | 60 => .ok (.clientCertificateRequired .clientCertificateRequired)
  | 61 => .ok (.clientCertificateRequired .certificateNotAuthorized)
  | 62 => .ok (.clientCertificateRequired .certificateNotValid)
  | c => .error c

/-- The set of status codes accepted by `Status::try_from`. -/
def validStatusCodes : List Nat :=
  [10, 11, 20, 30, 31, 40, 41, 42, 43, 44, 50, 51, 52, 53, 59, 60, 61, 62]

deriving instance DecidableEq for Except

/-- C1: over 0–255, `Status::try_from` succeeds exactly on the 18 listed
codes, maps each of them to the taxonomy's variant, and returns
`InvalidStatusError(code)` for every other code. -/
theorem c1_status_tryFrom :
    (∀ c : Fin 256, (Status.tryFrom c.val).isOk ↔ c.val ∈ validStatusCodes) ∧
    (∀ c : Fin 256, c.val ∉ validStatusCodes → Status.tryFrom c.val = .error c.val) ∧
    Status.tryFrom 10 = .ok (.input .input) ∧
    Status.tryFrom 11 = .ok (.input .sensitive) ∧
    Status.tryFrom 20 = .ok .success ∧
    Status.tryFrom 30 = .ok (.redirect .temporary) ∧
    Status.tryFrom 31 = .ok (.redirect .permanent) ∧
    Status.tryFrom 40 = .ok (.temporaryFailure .temporaryFailure) ∧
    Status.tryFrom 41 = .ok (.temporaryFailure .serverUnavailable) ∧
    Status.tryFrom 42 = .ok (.temporaryFailure .cgiError) ∧
    Status.tryFrom 43 = .ok (.temporaryFailure .proxyError) ∧
    Status.tryFrom 44 = .ok (.temporaryFailure .slowDown) ∧
    Status.tryFrom 50 = .ok (.permanentFailure .permanentFailure) ∧
    Status.tryFrom 51 = .ok (.permanentFailure .notFound) ∧
    Status.tryFrom 52 = .ok (.permanentFailure .gone) ∧
    Status.tryFrom 53 = .ok (.permanentFailure .proxyRequestRefused) ∧
    Status.tryFrom 59 = .ok (.permanentFailure .badRequest) ∧
    Status.tryFrom 60 = .ok (.clientCertificateRequired .clientCertificateRequired) ∧
    Status.tryFrom 61 = .ok (.clientCertificateRequired .certificateNotAuthorized) ∧
    Status.tryFrom 62 = .ok (.clientCertificateRequired .certificateNotValid) := by
  decide

/-- Witness for C1 at concrete inputs: 21 is rejected with
`InvalidStatusError(21)` and 10 maps to `Input`. -/
theorem c1_status_tryFrom_witness :
    Status.tryFrom 21 = .error 21 ∧ Status.tryFrom 10 = .ok (.input .input) :=
  ⟨c1_status_tryFrom.2.1 ⟨21, by decide⟩ (by decide), c1_status_tryFrom.2.2.1⟩

/-! String primitives shared by the embedded functions.  They model the
`str` methods the source calls: `split_once`, `rsplit_once`,
`starts_with`, `trim_start` and friends, over `List Char`. -/

/-- Models `str::split_once(c)`: split at the first occurrence of `c`. -/
def splitOnceChar (c : Char) : List Char → Option (List Char × List Char)
  | [] => none
  | x :: rest =>
    if x = c then some ([], rest)
    else (splitOnceChar c rest).map (fun p => (x :: p.1, p.2))

/-- Models `str::rsplit_once(c)` (result reordered to document order):
split at the last occurrence of `c`. -/
def rsplitOnceChar (c : Char) : List Char → Option (List Char × List Char)
  | [] => none
  | x :: rest =>
    match rsplitOnceChar c rest with
    | some p => some (x :: p.1, p.2)
    | none => if x = c then some ([], rest) else none

/-- Models `str::split_once("\r\n")`: split at the first occurrence of the
two-character sequence CR LF. -/
def splitCrlf : List Char → Option (List Char × List Char)
  | '\r' :: '\n' :: rest => some ([], rest)
  | x :: rest => (splitCrlf rest).map (fun p => (x :: p.1, p.2))
  | [] => none

/-- UTF-8 encoding of one Unicode scalar value, as `String::as_bytes`
would produce for that character. -/
def charUtf8 (c : Char) : List Nat :=
  let n := c.toNat
  if n < 0x80 then [n]
  else if n < 0x800 then [0xC0 + n / 64, 0x80 + n % 64]
  else if n < 0x10000 then [0xE0 + n / 4096, 0x80 + n / 64 % 64, 0x80 + n % 64]
  else [0xF0 + n / 262144, 0x80 + n / 4096 % 64, 0x80 + n / 64 % 64, 0x80 + n % 64]

/-- Models `str::as_bytes` / `str::len`: the UTF-8 byte sequence of a string. -/
def utf8Encode : List Char → List Nat
  | [] => []
  | c :: rest => charUtf8 c ++ utf8Encode rest

/-- Byte length of a string (`str::len`). -/
def utf8Len (s : List Char) : Nat := (utf8Encode s).length

/-- Tests whether a byte is a UTF-8 continuation byte (`0b10xxxxxx`). -/
def isCont (b : Nat) : Bool := 0x80 ≤ b ∧ b < 0xC0

/-- Models `std::str::from_utf8`: strict UTF-8 validation and decoding —
continuation-byte shapes, no overlong forms, no surrogates, maximum
U+10FFFF.  Returns `none` exactly when Rust returns `Err(Utf8Error)`. -/
def utf8Decode : List Nat → Option (List Char)
  | [] => some []
  | b :: rest =>
    if b < 0x80 then (utf8Decode rest).map (fun cs => Char.ofNat b :: cs)
    else if b < 0xC2 then none
    else if b < 0xE0 then
      match rest with
      | b1 :: rest1 =>
        if isCont b1 then
          (utf8Decode rest1).map (fun cs => Char.ofNat ((b - 0xC0) * 64 + (b1 - 0x80)) :: cs)
        else none
      | [] => none
    else if b < 0xF0 then
      match rest with
      | b1 :: b2 :: rest2 =>
        if isCont b1 ∧ isCont b2 then
          let v := (b - 0xE0) * 4096 + (b1 - 0x80) * 64 + (b2 - 0x80)
          if 0x800 ≤ v ∧ (v < 0xD800 ∨ 0xE000 ≤ v) then
            (utf8Decode rest2).map (fun cs => Char.ofNat v :: cs)
          else none
        else none
      | _ => none
    else if b < 0xF5 then
      match rest with
      | b1 :: b2 :: b3 :: rest3 =>
        if isCont b1 ∧ isCont b2 ∧ isCont b3 then
          let v := (b - 0xF0) * 262144 + (b1 - 0x80) * 4096 + (b2 - 0x80) * 64 + (b3 - 0x80)
          if 0x10000 ≤ v ∧ v ≤ 0x10FFFF then
            (utf8Decode rest3).map (fun cs => Char.ofNat v :: cs)
          else none
        else none
      | _ => none
    else none

/-- Models `str::parse::<u8>()`: an optional leading `+`, then one or more
ASCII decimal digits, value at most 255 (overflow is an error). -/
def parseU8 (s : List Char) : Option Nat :=
  let digits := match s with
    | '+' :: rest => rest
    | _ => s
  if digits.isEmpty then none
  else if digits.all Char.isDigit then
    let v := digits.foldl (fun a c => a * 10 + (c.toNat - 48)) 0
    if v ≤ 255 then some v else none
  else none

/-- The byte-order-mark codepoint U+FEFF tested by `starts_with('\u{FEFF}')`. -/
def bom : Char := Char.ofNat 0xFEFF

/-- Embeds `ResponseHeaderParseError`. -/
inductive ResponseHeaderParseError where
  | malformed : String → ResponseHeaderParseError
  | status : InvalidStatusError → ResponseHeaderParseError
deriving DecidableEq, Repr

/-- Embeds `ResponseHeader` (the `meta` field is the stored string; the
`StackStr<1024>` buffer stores it verbatim once its length is checked). -/
structure ResponseHeader where
  status : Status
  meta : List Char
deriving DecidableEq, Repr

/-- Embeds `ResponseHeader::parse(src: impl AsRef<[u8]>)`: UTF-8 decode,
reject a leading U+FEFF, cut at the first CR LF, split the header line at
the first space, parse the status code, check META's byte length and its
leading character. -/
def ResponseHeader.parse (bs : List Nat) : Except ResponseHeaderParseError ResponseHeader :=
  match utf8Decode bs with
  | none => .error (.malformed ("is not valid UTF-8"))
  | some src =>
    if src.head? = some bom then .error (.malformed ("header starts with U+FEFF"))
    else
      match splitCrlf src with
      | none => .error (.malformed ("does not end with a CR/LF"))
      | some (line, _) =>
        match splitOnceChar ' ' line with
        | none => .error (.malformed ("missing space (0x20) separator"))
        | some (statusTok, meta) =>
          match parseU8 statusTok with
          | none => .error (.malformed ("invalid status code"))
          | some code =>
            match Status.tryFrom code with
            | .error e => .error (.status e)
            | .ok status =>
              if 1024 < utf8Len meta then
                .error (.malformed ("META is be longer than 1024 bytes"))
              else if meta.head? = some bom then
                .error (.malformed ("META starts with U+FEFF"))
              else .ok ⟨status, meta⟩

/-- C2: `ResponseHeader::parse` succeeds on a byte sequence exactly when
it is valid UTF-8, does not start with U+FEFF, contains CR LF, the text
before the first CR LF splits at its first space into a status token
parsing as a `u8` that names a valid status and a META of at most 1024
bytes not starting with U+FEFF; on success it returns that status and
that META, ignoring everything after the first CR LF.  Includes the
spec's concrete examples. -/
theorem c2_header_parse :
    (∀ (bs : List Nat) (r : ResponseHeader),
      ResponseHeader.parse bs = .ok r ↔
      ∃ cs line rest statusTok meta code st,
        utf8Decode bs = some cs ∧
        cs.head? ≠ some bom ∧
        splitCrlf cs = some (line, rest) ∧
        splitOnceChar ' ' line = some (statusTok, meta) ∧
        parseU8 statusTok = some code ∧
        Status.tryFrom code = .ok st ∧
        utf8Len meta ≤ 1024 ∧
        meta.head? ≠ some bom ∧
        r = ⟨st, meta⟩) ∧
    ResponseHeader.parse (utf8Encode ("20 all good, yup\r\n").data) =
      .ok ⟨.success, ("all good, yup").data⟩ ∧
    (ResponseHeader.parse (utf8Encode ("59 missing-crlf").data)).isOk = false ∧
    (ResponseHeader.parse (utf8Encode ("59-missing-space\r\n").data)).isOk = false ∧
    (ResponseHeader.parse (utf8Encode ("69 bad number\r\n").data)).isOk = false := by
  refine ⟨?_, by decide, by decide, by decide, by decide⟩
  intro bs r
  constructor
  · intro h
    unfold ResponseHeader.parse at h
    cases hcs : utf8Decode bs with
    | none => simp [hcs] at h
    | some cs =>
      simp only [hcs] at h
      by_cases hbom : cs.head? = some bom
      · simp [hbom] at h
      · rw [if_neg hbom] at h
        cases hsp : splitCrlf cs with
        | none => simp [hsp] at h
        | some p =>
          obtain ⟨line, rest⟩ := p
          simp only [hsp] at h
          cases hsp2 : splitOnceChar ' ' line with
          | none => simp [hsp2] at h
          | some q =>
            obtain ⟨statusTok, meta⟩ := q
            simp only [hsp2] at h
            cases hp : parseU8 statusTok with
            | none => simp [hp] at h
            | some code =>
              simp only [hp] at h
              cases hst : Status.tryFrom code with
              | error e => simp [hst] at h
              | ok st =>
                simp only [hst] at h
                by_cases hlen : 1024 < utf8Len meta
                · simp [hlen] at h
                · rw [if_neg hlen] at h
                  by_cases hmbom : meta.head? = some bom
                  · simp [hmbom] at h
                  · rw [if_neg hmbom] at h
                    refine ⟨cs, line, rest, statusTok, meta, code, st,
                      rfl, hbom, hsp, hsp2, hp, hst, Nat.not_lt.mp hlen, hmbom, ?_⟩
                    cases h
                    rfl
  · rintro ⟨cs, line, rest, statusTok, meta, code, st,
      hcs, hbom, hsp, hsp2, hp, hst, hlen, hmbom, rfl⟩
    unfold ResponseHeader.parse
    simp only [hcs, hsp, hsp2, hp, hst]
    rw [if_neg hbom, if_neg (Nat.not_lt.mpr hlen), if_neg hmbom]

/-! Embedding of `Response::read`.  The reader is a finite byte stream that
yields no I/O error, so the `Io` error constructors are unreachable and
omitted; the remaining errors are modelled exactly. -/

/-- Embeds `ResponseReadError` (minus the I/O constructor, unreachable for
an error-free in-memory stream). -/
inductive ResponseReadError where
  | headerParse : ResponseHeaderParseError → ResponseReadError
  | missingHeader
deriving DecidableEq, Repr

/-- Embeds `Response`. -/
structure Response where
  header : ResponseHeader
  body : List Nat
deriving DecidableEq, Repr

/-- Embeds the `for byte in reader.bytes()` loop of `Response::read`: state
is the optional parsed header, the accumulation buffer, and the `saw_cr`
flag.  Once the header is parsed the flag is no longer updated, exactly as
in the source where the `if header.is_none()` block is skipped. -/
def Response.readLoop :
    List Nat → Option ResponseHeader → List Nat → Bool →
      Except ResponseReadError (Option ResponseHeader × List Nat)
  | [], header, buffer, _ => .ok (header, buffer)
  | b :: rest, header, buffer, sawCr =>
    let buffer' := buffer ++ [b]
    match header with
    | some h => Response.readLoop rest (some h) buffer' sawCr
    | none =>
      if sawCr = true ∧ b = 10 then
        match ResponseHeader.parse buffer' with
        | .error e => .error (.headerParse e)
        | .ok h => Response.readLoop rest (some h) [] (decide (b = 13))
      else Response.readLoop rest none buffer' (decide (b = 13))

/-- Embeds `Response::read` over a finite error-free byte stream. -/
def Response.read (bs : List Nat) : Except ResponseReadError Response :=
  match Response.readLoop bs none [] false with
  | .error e => .error e
  | .ok (none, _) => .error .missingHeader
  | .ok (some h, body) => .ok ⟨h, body⟩

/-- Splits a byte sequence at the first CR byte immediately followed by an
LF byte, returning the bytes before the pair and the bytes after it. -/
def splitCrlfBytes : List Nat → Option (List Nat × List Nat)
  | [] => none
  | b :: rest =>
    if b = 13 ∧ rest.head? = some 10 then some ([], rest.tail)
    else (splitCrlfBytes rest).map (fun p => (b :: p.1, p.2))

theorem readLoop_some (bs : List Nat) (h : ResponseHeader) :
    ∀ buffer sawCr,
      Response.readLoop bs (some h) buffer sawCr = .ok (some h, buffer ++ bs) := by
  induction bs with
  | nil => intro buffer sawCr; simp [Response.readLoop]
  | cons b rest ih =>
    intro buffer sawCr
    simp [Response.readLoop, ih]

theorem splitCrlfBytes_concat_none {buf : List Nat} {b : Nat}
    (hbuf : splitCrlfBytes buf = none)
    (hne : ¬(buf.getLast? = some 13 ∧ b = 10)) :
    splitCrlfBytes (buf ++ [b]) = none := by
  induction buf with
  | nil =>
    simp only [List.getLast?_nil] at hne
    simp [splitCrlfBytes]
  | cons x buf ih =>
    rw [splitCrlfBytes] at hbuf
    by_cases hc : x = 13 ∧ buf.head? = some 10
    · simp [hc] at hbuf
    · rw [if_neg hc] at hbuf
      have hbuf' : splitCrlfBytes buf = none := by
        cases hs : splitCrlfBytes buf with
        | none => rfl
        | some p => simp [hs] at hbuf
      cases buf with
      | nil =>
        simp only [List.getLast?_singleton] at hne
        have : ¬(x = 13 ∧ b = 10) := fun ⟨h1, h2⟩ => hne (by simp [h1, h2])
        simp only [List.nil_append, List.cons_append, splitCrlfBytes]
        rw [if_neg (by simpa using this)]
        simp [splitCrlfBytes]
      | cons y buf' =>
        have hne' : ¬((y :: buf').getLast? = some 13 ∧ b = 10) := by
          intro hcontra
          exact hne (by rwa [List.getLast?_cons_cons])
        have hrec := ih hbuf' hne'
        show splitCrlfBytes (x :: ((y :: buf') ++ [b])) = none
        rw [splitCrlfBytes]
        rw [if_neg (by simpa using hc), hrec]
        rfl

theorem splitCrlfBytes_concat_lf {buf : List Nat}
    (hbuf : splitCrlfBytes buf = none)
    (h13 : buf.getLast? = some 13) (rest : List Nat) :
    splitCrlfBytes (buf ++ 10 :: rest) = some (buf.dropLast, rest) := by
  induction buf with
  | nil => simp at h13
  | cons x buf ih =>
    rw [splitCrlfBytes] at hbuf
    by_cases hc : x = 13 ∧ buf.head? = some 10
    · simp [hc] at hbuf
    · rw [if_neg hc] at hbuf
      have hbuf' : splitCrlfBytes buf = none := by
        cases hs : splitCrlfBytes buf with
        | none => rfl
        | some p => simp [hs] at hbuf
      cases buf with
      | nil =>
        simp only [List.getLast?_singleton] at h13
        replace h13 : x = 13 := by simpa using h13
        subst h13
        simp [splitCrlfBytes]
      | cons y buf' =>
        rw [List.getLast?_cons_cons] at h13
        have hrec := ih hbuf' h13
        show splitCrlfBytes (x :: ((y :: buf') ++ 10 :: rest)) =
          some ((x :: y :: buf').dropLast, rest)
        rw [splitCrlfBytes]
        rw [if_neg (by simpa using hc), hrec]
        simp

theorem readLoop_none (bs : List Nat) :
    ∀ buf, splitCrlfBytes buf = none →
      Response.readLoop bs none buf (decide (buf.getLast? = some 13)) =
        match splitCrlfBytes (buf ++ bs) with
        | none => .ok (none, buf ++ bs)
        | some (pre, post) =>
          match ResponseHeader.parse (pre ++ [13, 10]) with
          | .error e => .error (.headerParse e)
          | .ok h => .ok (some h, post) := by
  induction bs with
  | nil =>
    intro buf hbuf
    simp [Response.readLoop, hbuf]
  | cons b rest ih =>
    intro buf hbuf
    by_cases hcond : buf.getLast? = some 13 ∧ b = 10
    · obtain ⟨h13, h10⟩ := hcond
      subst h10
      have hbufne : buf ≠ [] := by intro h; subst h; simp at h13
      have hsplit : splitCrlfBytes (buf ++ 10 :: rest) = some (buf.dropLast, rest) :=
        splitCrlfBytes_concat_lf hbuf h13 rest
      have hbufeq : buf.dropLast ++ [13, 10] = buf ++ [10] := by
        conv_rhs => rw [← List.dropLast_append_getLast hbufne]
        have hgl : buf.getLast hbufne = 13 := by
          have h2 := List.getLast?_eq_getLast buf hbufne
          rw [h2] at h13
          exact Option.some.inj h13
        rw [hgl]
        simp
      rw [Response.readLoop]
      rw [if_pos ⟨by simp [h13], rfl⟩]
      simp only [hsplit, hbufeq]
      cases hp : ResponseHeader.parse (buf ++ [10]) with
      | error e => simp
      | ok h => simp [readLoop_some]
    · have hsawcr :
          ¬(decide (buf.getLast? = some 13) = true ∧ b = 10) := by
        simpa using hcond
      rw [Response.readLoop, if_neg hsawcr]
      have hflag : (decide (b = 13)) = decide ((buf ++ [b]).getLast? = some 13) := by
        simp
      rw [hflag]
      have := ih (buf ++ [b]) (splitCrlfBytes_concat_none hbuf hcond)
      rw [List.append_assoc] at this
      simpa using this

/-- C3: over every finite, error-free byte stream, `Response::read` fails
with `MissingHeader` exactly when no CR byte immediately followed by an LF
byte ever occurs; otherwise the prefix up to and including the first CR LF
is handed to `ResponseHeader::parse` (its error is propagated) and on
success the body is everything after that first CR LF, byte for byte. -/
theorem c3_response_read (bs : List Nat) :
    Response.read bs =
      match splitCrlfBytes bs with
      | none => .error .missingHeader
      | some (pre, post) =>
        match ResponseHeader.parse (pre ++ [13, 10]) with
        | .error e => .error (.headerParse e)
        | .ok h => .ok ⟨h, post⟩ := by
  have h0 := readLoop_none bs [] rfl
  simp only [List.nil_append] at h0
  have hd : (decide ((([] : List Nat)).getLast? = some 13)) = false := rfl
  rw [hd] at h0
  rw [Response.read, h0]
  cases hs : splitCrlfBytes bs with
  | none => simp
  | some p =>
    obtain ⟨pre, post⟩ := p
    cases hp : ResponseHeader.parse (pre ++ [13, 10]) with
    | error e => simp [hp]
    | ok h => simp [hp]

/-! Embedding of the `uri` module.  Rust's `char::is_alphabetic` consults
the full Unicode Alphabetic table, which is impractical to transcribe, so
the functions that call it take the predicate as an explicit parameter;
every concrete input below is ASCII, where `Char.isAlpha` coincides with
Rust's predicate. -/

/-- Embeds `uri::Uri` (all fields are borrowed substrings in the source). -/
structure Uri where
  scheme : Option (List Char)
  userinfo : Option (List Char)
  host : Option (List Char)
  port : Option (List Char)
  path : Option (List Char)
  query : Option (List Char)
  fragment : Option (List Char)
deriving DecidableEq, Repr

/-- Models `is_scheme(c)`: `c.is_alphabetic() || c.is_ascii_digit() ||
"+-.".contains(c)`. -/
def isScheme (isAlphabetic : Char → Bool) (c : Char) : Bool :=
  isAlphabetic c || c.isDigit || c = '+' || c = '-' || c = '.'

/-- Embeds `Uri::new`.  The source wraps the result in `Ok` and has no
reachable error path, so the embedding returns the `Uri` directly. -/
def Uri.new (isAlphabetic : Char → Bool) (src : List Char) : Uri :=
  let step1 : List Char × Option (List Char) :=
    match splitOnceChar '#' src with
    | some (rest, frag) => (rest, some frag)
    | none => (src, none)
  let fragment := step1.2
  let step2 : List Char × Option (List Char) :=
    match splitOnceChar '?' step1.1 with
    | some (rest, query) => (rest, some query)
    | none => (step1.1, none)
  let query := step2.2
  let step3 : List Char × Option (List Char) :=
    if (match step2.1 with
        | c :: _ => isAlphabetic c
        | [] => false) then
      match splitOnceChar ':' step2.1 with
      | some (scheme, rest) =>
        if scheme.all (isScheme isAlphabetic) then (rest, some scheme)
        else (step2.1, none)
      | none => (step2.1, none)
    else (step2.1, none)
  let scheme := step3.2
  match step3.1 with
  | '/' :: '/' :: rest =>
    let step4 : List Char × Option (List Char) :=
      match splitOnceChar '/' rest with
      | some (r, path) => (r, some path)
      | none => (rest, none)
    let path := step4.2
    let step5 : List Char × Option (List Char) :=
      match rsplitOnceChar ':' step4.1 with
      | some (r, port) =>
        if port.all Char.isDigit then (r, some port) else (step4.1, none)
      | none => (step4.1, none)
    let port := step5.2
    let step6 : Option (List Char) × Option (List Char) :=
      match splitOnceChar '@' step5.1 with
      | some (userinfo, host) => (some userinfo, some host)
      | none => (none, some step5.1)
    ⟨scheme, step6.1, step6.2, port, path, query, fragment⟩
  | other => ⟨scheme, none, none, none, some other, query, fragment⟩

/-- Embeds `impl ToString for Uri` (`fn to_string`). -/
def Uri.toStr (u : Uri) : List Char :=
  (match u.scheme with
   | some s => s ++ [':']
   | none => []) ++
  (if u.host.isSome then
    ['/', '/'] ++
    (match u.userinfo with
     | some ui => ui ++ ['@']
     | none => []) ++
    (match u.host with
     | some h => h
     | none => []) ++
    (match u.port with
     | some p => ':' :: p
     | none => []) ++
    (match u.path with
     | some p => '/' :: p.dropWhile (· = '/')
     | none => [])
  else
    match u.path with
    | some p => p
    | none => []) ++
  (match u.query with
   | some q => '?' :: q
   | none => []) ++
  (match u.fragment with
   | some f => '#' :: f
   | none => [])

/-- C5: parsing each of the four RFC3986-style example strings with
`Uri::new` and reconstructing with `to_string` yields the original string
exactly. -/
theorem c5_uri_roundtrip :
    (Uri.new Char.isAlpha ("ftp://ftp.is.co.za/rfc/rfc1808.txt").data).toStr =
      ("ftp://ftp.is.co.za/rfc/rfc1808.txt").data ∧
    (Uri.new Char.isAlpha ("mailto:John.Doe@example.com").data).toStr =
      ("mailto:John.Doe@example.com").data ∧
    (Uri.new Char.isAlpha ("tel:+1-816-555-1212").data).toStr =
      ("tel:+1-816-555-1212").data ∧
    (Uri.new Char.isAlpha
        ("https://john.doe@www.example.com:1234/forum/questions/?query#Frag").data).toStr =
      ("https://john.doe@www.example.com:1234/forum/questions/?query#Frag").data := by
  refine ⟨by decide, by decide, by decide, by decide⟩
/-- C6 counterexample: on `"a#b#c"` the parsed fragment is everything after
the FIRST `#`, namely `"b#c"`, which itself contains `#` — refuting the
claim that the fragment is split at the last `#` and contains no `#`. -/
theorem c6_counterexample :
    (Uri.new Char.isAlpha ("a#b#c").data).fragment = some (("b#c").data) ∧
    '#' ∈ ("b#c").data := by
  refine ⟨by decide, by decide⟩

/-- C6 (amended): for every input, `Uri::new` splits off the fragment at
the FIRST `#` (the fragment is everything after the first `#`, and may
itself contain `#`), then splits off the query at the FIRST `?` of what
remains (the query is everything after that first `?`, and may itself
contain `?`). -/
theorem c6_uri_first_split (isAlphabetic : Char → Bool) (src : List Char) :
    (Uri.new isAlphabetic src).fragment = (splitOnceChar '#' src).map Prod.snd ∧
    (Uri.new isAlphabetic src).query =
      (splitOnceChar '?' ((splitOnceChar '#' src).elim src Prod.fst)).map Prod.snd := by
  constructor
  · unfold Uri.new
    cases h1 : splitOnceChar '#' src with
    | none =>
      simp only [h1, Option.map_none']
      repeat' split <;> rfl
    | some p =>
      obtain ⟨r, f⟩ := p
      simp only [h1, Option.map_some']
      repeat' split <;> rfl
  · unfold Uri.new
    cases h1 : splitOnceChar '#' src with
    | none =>
      simp only [h1, Option.elim_none]
      cases h2 : splitOnceChar '?' src with
      | none =>
        simp only [h2, Option.map_none']
        repeat' split <;> rfl
      | some q =>
        obtain ⟨r2, qq⟩ := q
        simp only [h2, Option.map_some']
        repeat' split <;> rfl
    | some p =>
      obtain ⟨r, f⟩ := p
      simp only [h1, Option.elim_some]
      cases h2 : splitOnceChar '?' r with
      | none =>
        simp only [h2, Option.map_none']
        repeat' split <;> rfl
      | some q =>
        obtain ⟨r2, qq⟩ := q
        simp only [h2, Option.map_some']
        repeat' split <;> rfl

/-! Embedding of `Request::new`. -/

/-- Embeds `RequestError` (minus the I/O constructor, which `new` never
produces).  The `UrlTooLong` mapping of `Uri::new`'s error is dead code in
the source because `Uri::new` always returns `Ok`. -/
inductive RequestError where
  | urlTooLong
  | invalidUrl
deriving DecidableEq, Repr

/-- Embeds `Request` (the `StackStr<1024>` buffer stores the URL verbatim;
`url_as_str` returns it unchanged). -/
structure Request where
  uri : List Char
deriving DecidableEq, Repr

/-- Embeds `Request::new`: reject a URL longer than 1024 bytes, then
parse it with `Uri::new` and reject it when it starts with U+FEFF, has no
host, or carries userinfo; otherwise store the text verbatim. -/
def Request.new (isAlphabetic : Char → Bool) (uri : List Char) :
    Except RequestError Request :=
  if 1024 < utf8Len uri then .error .urlTooLong
  else
    let view := Uri.new isAlphabetic uri
    if uri.head? = some bom ∨ view.host = none ∨ view.userinfo.isSome then
      .error .invalidUrl
    else .ok ⟨uri⟩

/-- Embeds `Request::url_as_str`. -/
def Request.urlAsStr (r : Request) : List Char := r.uri

/-- C4: `Request::new` fails with `UrlTooLong` exactly on URLs longer than
1024 bytes; within the length bound it fails with `InvalidUrl` exactly when
the text starts with U+FEFF, `Uri::new` finds no host, or finds userinfo;
otherwise it succeeds and stores the text verbatim (`url_as_str` returns
exactly the input).  Includes the four concrete rejections the claim lists
and one accepted URL. -/
theorem c4_request_new :
    (∀ (a : Char → Bool) (s : List Char),
      Request.new a s = .error .urlTooLong ↔ 1024 < utf8Len s) ∧
    (∀ (a : Char → Bool) (s : List Char),
      Request.new a s = .error .invalidUrl ↔
        utf8Len s ≤ 1024 ∧
          (s.head? = some bom ∨ (Uri.new a s).host = none ∨
            (Uri.new a s).userinfo.isSome)) ∧
    (∀ (a : Char → Bool) (s : List Char) (r : Request),
      Request.new a s = .ok r ↔
        utf8Len s ≤ 1024 ∧
          ¬(s.head? = some bom ∨ (Uri.new a s).host = none ∨
            (Uri.new a s).userinfo.isSome) ∧
          r.urlAsStr = s) ∧
    Request.new Char.isAlpha (List.replicate 1025 'a') = .error .urlTooLong ∧
    Request.new Char.isAlpha (("gemini://user@example.com/").data) = .error .invalidUrl ∧
    Request.new Char.isAlpha (("/just/a/path").data) = .error .invalidUrl ∧
    Request.new Char.isAlpha (bom :: ("gemini://example.com/").data) = .error .invalidUrl ∧
    Request.new Char.isAlpha (("gemini://example.com/").data) =
      .ok ⟨("gemini://example.com/").data⟩ := by
  refine ⟨?_, ?_, ?_, ?_, by decide, by decide, by decide, by decide⟩
  · intro a s
    unfold Request.new
    by_cases hlen : 1024 < utf8Len s
    · simp [hlen]
    · simp only [if_neg hlen]
      constructor
      · intro h
        split at h <;> simp_all
      · intro h
        exact absurd h hlen
  · intro a s
    unfold Request.new
    by_cases hlen : 1024 < utf8Len s
    · simp [hlen, hlen.not_le]
    · simp only [if_neg hlen]
      by_cases hbad : s.head? = some bom ∨ (Uri.new a s).host = none ∨
          (Uri.new a s).userinfo.isSome
      · simp [hbad, Nat.not_lt.mp hlen]
      · simp [hbad, Nat.not_lt.mp hlen]
  · intro a s r
    unfold Request.new
    by_cases hlen : 1024 < utf8Len s
    · simp [hlen, hlen.not_le]
    · simp only [if_neg hlen]
      by_cases hbad : s.head? = some bom ∨ (Uri.new a s).host = none ∨
          (Uri.new a s).userinfo.isSome
      · simp [hbad]
      · simp only [if_neg hbad]
        constructor
        · rintro h
          cases h
          exact ⟨Nat.not_lt.mp hlen, hbad, rfl⟩
        · rintro ⟨-, -, hr⟩
          have : r = ⟨s⟩ := by
            cases r
            simpa [Request.urlAsStr] using hr
          rw [this]
  · decide

/-! Embedding of the Gemtext tokenizer. -/

/-- Models Rust `char::is_whitespace`: the Unicode White_Space property,
whose full codepoint list is transcribed here. -/
def rustIsWhitespace (c : Char) : Bool :=
  let n := c.toNat
  (0x09 ≤ n ∧ n ≤ 0x0D) ∨ n = 0x20 ∨ n = 0x85 ∨ n = 0xA0 ∨ n = 0x1680 ∨
    (0x2000 ≤ n ∧ n ≤ 0x200A) ∨ n = 0x2028 ∨ n = 0x2029 ∨ n = 0x202F ∨
    n = 0x205F ∨ n = 0x3000

/-- Models `str::split_once(char::is_whitespace)`: split at the first
character satisfying the predicate. -/
def splitOncePred (p : Char → Bool) : List Char → Option (List Char × List Char)
  | [] => none
  | x :: rest =>
    if p x then some ([], rest)
    else (splitOncePred p rest).map (fun q => (x :: q.1, q.2))

/-- Splits a string at `'\n'` characters (`str::split('\n')`). -/
def splitNl : List Char → List (List Char)
  | [] => [[]]
  | '\n' :: rest => [] :: splitNl rest
  | c :: rest =>
    match splitNl rest with
    | [] => [[c]]
    | l :: ls => (c :: l) :: ls

/-- Removes one trailing `'\r'` if present, as `str::lines` does per line. -/
def stripCr (l : List Char) : List Char :=
  if l.getLast? = some '\r' then l.dropLast else l

/-- Models `str::lines()`: split at `'\n'`, drop a final empty piece (which
exists exactly when the string is empty or ends with `'\n'`), and strip one
trailing `'\r'` from each line. -/
def rustLines (s : List Char) : List (List Char) :=
  let parts := splitNl s
  let parts := if parts.getLast? = some [] then parts.dropLast else parts
  parts.map stripCr

/-- The backtick character of the three-character preformat fence. -/
def backtick : Char := Char.ofNat 96

/-- Embeds `TokenPreformatted` (its `Default` is `{preformatted: false,
alt_text: None}`). -/
structure TokenPreformatted where
  preformatted : Bool
  alt_text : Option (List Char)
deriving DecidableEq, Repr, Inhabited

/-- Embeds `GemtextToken`; heading and list levels (`u8` in the source)
become `Nat`. -/
inductive GemtextToken where
  | text : List Char → TokenPreformatted → GemtextToken
  | link : List Char → Option (List Char) → GemtextToken
  | preformatted : List Char → Option (List Char) → GemtextToken
  | heading : List Char → Nat → GemtextToken
  | list : List Char → Nat → GemtextToken
  | quote : List Char → GemtextToken
deriving DecidableEq, Repr

/-- Embeds `Gemtext`: the remaining lines of the `Lines` iterator and the
current preformat state. -/
structure Gemtext where
  lines : List (List Char)
  pre : TokenPreformatted
deriving DecidableEq, Repr

/-- Embeds `Gemtext::new`. -/
def Gemtext.new (src : List Char) : Gemtext :=
  ⟨rustLines src, default⟩

/-- The part of `<Gemtext as Iterator>::next` after the fence handling:
heading lines, link lines, and the `Text` fallback, evaluated with the
current preformat state. -/
def classifyLine (pre : TokenPreformatted) (line : List Char) : GemtextToken :=
  if pre.preformatted = false ∧ line.head? = some '#' then
    let count := (line.filter (fun x => x = '#')).length
    if count < 4 then
      .heading (line.dropWhile (fun x => x = '#' ∨ rustIsWhitespace x)) count
    else .text line pre
  else if pre.preformatted = false ∧ ['=', '>'].isPrefixOf line then
    let rest := line.drop 2
    if (match rest.head? with
        | some c => rustIsWhitespace c
        | none => false) then
      let rest := rest.dropWhile rustIsWhitespace
      match splitOncePred rustIsWhitespace rest with
      | some (url, name) => .link url (some (name.dropWhile rustIsWhitespace))
      | none => .link rest none
    else .text line pre
  else .text line pre

/-- The preformat state after a fence line toggles it: opening records the
text after the fence, trimmed of leading whitespace, as alt-text; closing
keeps the old alt-text, as the source never clears it. -/
def togglePre (pre : TokenPreformatted) (line : List Char) : TokenPreformatted :=
  if pre.preformatted then ⟨false, pre.alt_text⟩
  else ⟨true, some ((line.drop 3).dropWhile rustIsWhitespace)⟩

/-- Embeds `<Gemtext as Iterator>::next`: a line starting with the fence
toggles the preformat state and immediately consumes the following line,
which is then classified under the new state; with no following line the
fence line itself becomes a `Text` token with a default preformat tag. -/
def Gemtext.next (g : Gemtext) : Option (GemtextToken × Gemtext) :=
  match g.lines with
  | [] => none
  | line :: rest =>
    if [backtick, backtick, backtick].isPrefixOf line then
      let pre' := togglePre g.pre line
      match rest with
      | [] => some (.text line default, ⟨[], pre'⟩)
      | l2 :: rest2 => some (classifyLine pre' l2, ⟨rest2, pre'⟩)
    else some (classifyLine g.pre line, ⟨rest, g.pre⟩)

/-- Collects the iterator's tokens.  Every `next` consumes at least one
line, so the number of remaining lines bounds the number of steps. -/
def Gemtext.tokensGo : Nat → Gemtext → List GemtextToken
  | 0, _ => []
  | fuel + 1, g =>
    match g.next with
    | none => []
    | some (t, g') => t :: Gemtext.tokensGo fuel g'

/-- All tokens of a source document, in order. -/
def Gemtext.tokens (src : List Char) : List GemtextToken :=
  Gemtext.tokensGo (rustLines src).length (Gemtext.new src)
/-- C7 counterexample: outside preformatted text, the line `"# a #"` has a
leading `#` run of length 1, yet the tokenizer yields a Heading of level 2,
because the source counts every `#` in the line, not the leading run. -/
theorem c7_counterexample :
    Gemtext.next ⟨[("# a #").data], ⟨false, none⟩⟩ =
      some (.heading (("a #").data) 2, ⟨[], ⟨false, none⟩⟩) ∧
    ((("# a #").data).takeWhile (fun c => c = '#')).length = 1 := by
  refine ⟨by decide, by decide⟩

/-- C7 (amended): outside a preformatted block, a line whose first
character is `#` yields a Heading exactly when the total number of `#`
characters anywhere in the line is below 4; the level is that total count
and the text is the line stripped of every leading character that is `#`
or whitespace; with 4 or more `#` total the line is a Text token. -/
theorem c7_heading (pre : TokenPreformatted) (line : List Char)
    (rest : List (List Char)) (hpre : pre.preformatted = false)
    (hline : line.head? = some '#') :
    Gemtext.next ⟨line :: rest, pre⟩ =
      (if ((line.filter (fun x => x = '#')).length) < 4 then
        some (.heading (line.dropWhile (fun x => x = '#' ∨ rustIsWhitespace x))
            ((line.filter (fun x => x = '#')).length), ⟨rest, pre⟩)
      else some (.text line pre, ⟨rest, pre⟩)) := by
  cases line with
  | nil => simp at hline
  | cons c tl =>
    obtain rfl : c = '#' := by simpa using hline
    have hfence : [backtick, backtick, backtick].isPrefixOf ('#' :: tl) = false := by
      simp [List.isPrefixOf, backtick]
    unfold Gemtext.next
    simp only [hfence, Bool.false_eq_true, if_false]
    unfold classifyLine
    rw [if_pos ⟨hpre, rfl⟩]
    split <;> rename_i h <;> simp [h] <;> simp at h <;> omega

/-- Witness for C7's amended theorem at concrete inputs: a heading line
with two `#` in total, and a `#`-led line with four `#` in total that
stays a Text token. -/
theorem c7_heading_witness :
    Gemtext.next ⟨[("# one #").data], ⟨false, none⟩⟩ =
      some (.heading (("one #").data) 2, ⟨[], ⟨false, none⟩⟩) ∧
    Gemtext.next ⟨[("#a#b#c#").data], ⟨false, none⟩⟩ =
      some (.text (("#a#b#c#").data) ⟨false, none⟩, ⟨[], ⟨false, none⟩⟩) := by
  constructor
  · exact (c7_heading ⟨false, none⟩ (("# one #").data) [] rfl (by decide)).trans
      (by decide)
  · exact (c7_heading ⟨false, none⟩ (("#a#b#c#").data) [] rfl (by decide)).trans
      (by decide)

/-- C9: a line beginning with the three-backtick fence toggles the
preformat state; on opening, the text after the fence trimmed of leading
whitespace becomes the alt-text; and when a following line exists it is
consumed and classified within the same step under the new state (the
fence line produces no token of its own), while with no following line the
fence line becomes a Text token. -/
theorem c9_fence (pre : TokenPreformatted) (line : List Char)
    (rest : List (List Char))
    (hfence : [backtick, backtick, backtick].isPrefixOf line = true) :
    (Gemtext.next ⟨line :: rest, pre⟩ =
      match rest with
      | [] => some (.text line default, ⟨[], togglePre pre line⟩)
      | l2 :: rest2 =>
        some (classifyLine (togglePre pre line) l2, ⟨rest2, togglePre pre line⟩)) ∧
    (togglePre pre line).preformatted = !pre.preformatted ∧
    (pre.preformatted = false →
      (togglePre pre line).alt_text =
        some ((line.drop 3).dropWhile rustIsWhitespace)) := by
  refine ⟨?_, ?_, ?_⟩
  · unfold Gemtext.next
    simp only [hfence, if_true]
  · unfold togglePre
    cases hp : pre.preformatted <;> simp [hp]
  · intro hp
    unfold togglePre
    simp [hp]

/-- Witness for C9 at concrete inputs: an opening fence with alt-text
whose following line is consumed in the same step, and a lone closing
fence in an already-open block. -/
theorem c9_fence_witness :
    Gemtext.next ⟨[("``` rust").data, ("code").data], ⟨false, none⟩⟩ =
      some (.text (("code").data) ⟨true, some (("rust").data)⟩,
        ⟨[], ⟨true, some (("rust").data)⟩⟩) ∧
    Gemtext.next ⟨[("```").data], ⟨true, some (("rust").data)⟩⟩ =
      some (.text (("```").data) ⟨false, none⟩,
        ⟨[], ⟨false, some (("rust").data)⟩⟩) := by
  constructor
  · exact ((c9_fence ⟨false, none⟩ (("``` rust").data) [("code").data]
      (by decide)).1).trans (by decide)
  · exact ((c9_fence ⟨true, some (("rust").data)⟩ (("```").data) []
      (by decide)).1).trans (by decide)
theorem classifyLine_shape (pre : TokenPreformatted) (line : List Char) :
    (∃ s p, classifyLine pre line = .text s p) ∨
    (∃ s n, classifyLine pre line = .heading s n) ∨
    (∃ u d, classifyLine pre line = .link u d) := by
  unfold classifyLine
  dsimp only
  repeat' split
  all_goals first
    | exact Or.inl ⟨_, _, rfl⟩
    | exact Or.inr (Or.inl ⟨_, _, rfl⟩)
    | exact Or.inr (Or.inr ⟨_, _, rfl⟩)

theorem next_shape (g : Gemtext) (t : GemtextToken) (g' : Gemtext)
    (h : Gemtext.next g = some (t, g')) :
    (∃ s p, t = .text s p) ∨ (∃ s n, t = .heading s n) ∨
    (∃ u d, t = .link u d) := by
  unfold Gemtext.next at h
  split at h
  · exact absurd h (by simp)
  · split at h
    · split at h
      · obtain rfl : GemtextToken.text _ default = t := congrArg Prod.fst (Option.some.inj h)
        exact Or.inl ⟨_, _, rfl⟩
      · obtain rfl : classifyLine _ _ = t := congrArg Prod.fst (Option.some.inj h)
        exact classifyLine_shape _ _
    · obtain rfl : classifyLine _ _ = t := congrArg Prod.fst (Option.some.inj h)
      exact classifyLine_shape _ _

theorem tokensGo_shape (fuel : Nat) :
    ∀ (g : Gemtext) (t : GemtextToken), t ∈ Gemtext.tokensGo fuel g →
      (∃ s p, t = .text s p) ∨ (∃ s n, t = .heading s n) ∨
      (∃ u d, t = .link u d) := by
  induction fuel with
  | zero => intro g t ht; simp [Gemtext.tokensGo] at ht
  | succ n ih =>
    intro g t ht
    rw [Gemtext.tokensGo] at ht
    cases hn : Gemtext.next g with
    | none => rw [hn] at ht; simp at ht
    | some p =>
      obtain ⟨tok, g2⟩ := p
      rw [hn] at ht
      rcases List.mem_cons.mp ht with rfl | hmem
      · exact next_shape _ _ _ hn
      · exact ih g2 t hmem

/-- C10: every token the tokenizer yields, over any document, is a Text,
Heading, or Link variant; the List, Quote, and Preformatted variants are
never produced. -/
theorem c10_token_variants (src : List Char) (t : GemtextToken)
    (ht : t ∈ Gemtext.tokens src) :
    (∃ s p, t = .text s p) ∨ (∃ s n, t = .heading s n) ∨
    (∃ u d, t = .link u d) :=
  tokensGo_shape _ _ _ ht

/-- Witness for C10 at a concrete document containing a heading, a link,
and plain text. -/
theorem c10_token_variants_witness :
    (∃ s p, (GemtextToken.heading (("hi").data) 1) = .text s p) ∨
    (∃ s n, (GemtextToken.heading (("hi").data) 1) = .heading s n) ∨
    (∃ u d, (GemtextToken.heading (("hi").data) 1) = .link u d) :=
  c10_token_variants (("# hi\nplain").data) (.heading (("hi").data) 1) (by decide)

/-! Embedding of `uri::percent_decode`.  The source indexes the string
with `&s[i - 1..=i]` where `i` is the CHARACTER index produced by
`chars().enumerate()`, used as a BYTE offset; Rust panics when such a
slice boundary is out of range or not a character boundary, so the
embedding makes the panic explicit. -/

/-- Result of running Rust code that may panic. -/
inductive PanicOr (α : Type) where
  | panicked
  | ok : α → PanicOr α
deriving DecidableEq, Repr

/-- Byte size of one character in UTF-8 (`char::len_utf8`). -/
def utf8Size (c : Char) : Nat := (charUtf8 c).length

/-- Advances through a string to the char whose UTF-8 span starts at byte
offset `target`, given that the spans so far end at offset `o`; `none`
when `target` is past the end or inside a character (where Rust slicing
panics). -/
def dropToOffset : List Char → Nat → Nat → Option (List Char)
  | s, o, target =>
    if o = target then some s
    else match s with
      | [] => none
      | c :: rest =>
        if o + utf8Size c ≤ target then dropToOffset rest (o + utf8Size c) target
        else none

/-- Takes the characters whose UTF-8 spans lie in `[o, target)`; `none`
when `target` is past the end or inside a character. -/
def takeToOffset : List Char → Nat → Nat → Option (List Char)
  | s, o, target =>
    if o = target then some []
    else match s with
      | [] => none
      | c :: rest =>
        if o + utf8Size c ≤ target then
          (takeToOffset rest (o + utf8Size c) target).map (fun l => c :: l)
        else none

/-- Models the byte slice `&s[a..b]` of a `str`: the characters spanning
exactly the byte range, or `none` where Rust panics (boundary out of
range or not a character boundary). -/
def sliceBytes (s : List Char) (a b : Nat) : Option (List Char) :=
  if a ≤ b then (dropToOffset s 0 a).bind (fun t => takeToOffset t a b) else none

/-- Value of one ASCII hex digit. -/
def hexDigitVal (c : Char) : Option Nat :=
  if '0' ≤ c ∧ c ≤ '9' then some (c.toNat - 48)
  else if 'a' ≤ c ∧ c ≤ 'f' then some (c.toNat - 87)
  else if 'A' ≤ c ∧ c ≤ 'F' then some (c.toNat - 55)
  else none

/-- Models `u8::from_str_radix(s, 16)`: optional leading `+`, one or more
hex digits, value at most 255. -/
def fromStrRadix16 (s : List Char) : Option Nat :=
  let ds := match s with
    | '+' :: rest => rest
    | _ => s
  if ds.isEmpty then none
  else
    (ds.foldl (fun acc c => acc.bind (fun a => (hexDigitVal c).map (fun d => a * 16 + d)))
        (some 0)).bind
      (fun v => if v ≤ 255 then some v else none)

/-- The body of `percent_decode`'s `for (i, ch) in s.chars().enumerate()`
loop: `rem` counts down after a `%`; when it hits zero the source slices
`&s[i - 1..=i]` by byte offsets (panicking off char boundaries), hex-parses
it and pushes the decoded byte as a char.  The inner `Option` is the
function's own `None` (from the `?`); `panicked` is a Rust panic. -/
def pdGo (s : List Char) : List Char → Nat → Nat → List Char →
    PanicOr (Option (List Char))
  | [], _, _, out => .ok (some out)
  | ch :: rest, i, rem, out =>
    if rem = 0 then
      if ch = '%' then pdGo s rest (i + 1) 2 out
      else pdGo s rest (i + 1) 0 (out ++ [ch])
    else if rem - 1 = 0 then
      match sliceBytes s (i - 1) (i + 1) with
      | none => .panicked
      | some sub =>
        match fromStrRadix16 sub with
        | none => .ok none
        | some v => pdGo s rest (i + 1) 0 (out ++ [Char.ofNat v])
    else pdGo s rest (i + 1) (rem - 1) out

/-- Embeds `uri::percent_decode` with Rust panics made explicit. -/
def percentDecode (s : List Char) : PanicOr (Option (List Char)) :=
  pdGo s s 0 0 []

/-- C8 evidence: `percent_decode("%aé")` panics.  At the third character
the source slices bytes 1 to 3 of `"%aé"`, but byte 3 falls inside the
two-byte UTF-8 encoding of `'é'`, which is not a character boundary. -/
theorem c8_percent_decode_panics :
    percentDecode (("%aé").data) = .panicked ∧
    percentDecode (("%21%40With text%7E").data) =
      .ok (some (("!@With text~").data)) ∧
    percentDecode (("%zz").data) = .ok none := by
  refine ⟨by decide, by decide, by decide⟩
